import Mathlib

/-!
Verification development for the crawl engine of WebScanPro (`crawler.py`).

The Python source is shallowly embedded below.  Pure helpers
(`normalize_url`, `same_domain`, the `urllib.parse` routines they call)
become Lean functions; the crawl loop becomes a step function on an
explicit `CrawlState`, iterated with a step counter.  The network
(`requests.Session.get`), the robots.txt reader and the BeautifulSoup
HTML extractor are the process boundary: they are modelled as an
environment `Env` of oracles giving, for each URL, the fetch outcome,
and for each body text, the extracted raw hrefs and forms.
-/

namespace WebScanPro

/-! ## urllib.parse model

Faithful model of the parts of CPython's `urllib.parse` used by
`crawler.py`: `urlparse` (via `urlsplit`; the `params` component is kept
folded into `path`, which agrees with CPython whenever no `;` occurs in
the last path segment), `urljoin` and `urlunsplit`.  URLs are assumed
free of ASCII control characters (CPython strips those first).
-/

/-- Characters allowed in a URL scheme after the first character
(CPython's `scheme_chars`). -/
def schemeChar (c : Char) : Bool :=
  c.isAlpha || c.isDigit || c == '+' || c == '-' || c == '.'

/-- Split a character list at the first occurrence of `d`: returns the
part before it and, when `d` occurs, the part after it
(Python `s.split(d, 1)`). -/
def splitOnFirst (d : Char) : List Char → List Char × Option (List Char)
  | [] => ([], none)
  | x :: xs =>
    if x = d then ([], some xs)
    else
      let r := splitOnFirst d xs
      (x :: r.1, r.2)

/-- Python `s.split(d)` for a single-character separator. -/
def splitChar (d : Char) : List Char → List (List Char)
  | [] => [[]]
  | x :: xs =>
    let r := splitChar d xs
    if x = d then [] :: r
    else
      match r with
      | [] => [[x]]
      | h :: t => (x :: h) :: t

/-- Python `d.join` for the separator `/`. -/
def joinSlash : List String → String
  | [] => ""
  | [s] => s
  | s :: rest => s ++ "/" ++ joinSlash rest

/-- Python `s.split(d)` on strings. -/
def pySplit (s : String) (d : Char) : List String :=
  (splitChar d s.toList).map String.mk

/-- Python `s.startswith(pre)`. -/
def pyStartsWith (s pre : String) : Bool :=
  pre.toList.isPrefixOf s.toList

/-- Python `s.rstrip("/")`. -/
def pyRstripSlash (s : String) : String :=
  String.mk ((s.toList.reverse.dropWhile (fun c => c == '/')).reverse)

/-- Result of `urlsplit`: scheme, netloc, path (with params folded in),
query and fragment. -/
structure SplitResult where
  scheme : String
  netloc : String
  path : String
  query : String
  fragment : String
deriving DecidableEq

/-- Scheme recognition of CPython `urlsplit`: the part before the first
`:` is a scheme when it is non-empty, starts with an ASCII letter and
consists of scheme characters; it is lowercased.  Otherwise the default
scheme is used and the input is left whole. -/
def splitScheme (cs : List Char) (dflt : String) : String × List Char :=
  match List.findIdx? (fun c => c == ':') cs with
  | some i =>
    if 0 < i ∧ (cs.headD ' ').isAlpha ∧ ((cs.take i).drop 1).all schemeChar then
      (String.mk ((cs.take i).map Char.toLower), cs.drop (i + 1))
    else (dflt, cs)
  | none => (dflt, cs)

/-- CPython `_splitnetloc`: the netloc runs until the first of
`/`, `?` or `#`. -/
def splitNetloc (cs : List Char) : List Char × List Char :=
  (cs.takeWhile (fun c => ¬(c = '/' ∨ c = '?' ∨ c = '#')),
   cs.dropWhile (fun c => ¬(c = '/' ∨ c = '?' ∨ c = '#')))

/-- CPython `urlsplit url, scheme=dflt` (with `allow_fragments=True`). -/
def urlsplit (url : String) (dflt : String) : SplitResult :=
  let cs := url.toList
  let sr := splitScheme cs dflt
  let nr :=
    if sr.2.take 2 = ['/', '/'] then splitNetloc (sr.2.drop 2)
    else ([], sr.2)
  let fr := splitOnFirst '#' nr.2
  let qr := splitOnFirst '?' fr.1
  { scheme := sr.1
    netloc := String.mk nr.1
    path := String.mk qr.1
    query := String.mk (qr.2.getD [])
    fragment := String.mk (fr.2.getD []) }

/-- CPython `urlunsplit`. -/
def urlunsplit (r : SplitResult) : String :=
  let u1 :=
    if r.netloc ≠ "" ∨ (r.path ≠ "" ∧ r.path.toList.take 2 = ['/', '/']) then
      let p := if r.path ≠ "" ∧ r.path.toList.headD ' ' ≠ '/' then "/" ++ r.path else r.path
      "//" ++ r.netloc ++ p
    else r.path
  let u2 := if r.scheme ≠ "" then r.scheme ++ ":" ++ u1 else u1
  let u3 := if r.query ≠ "" then u2 ++ "?" ++ r.query else u2
  if r.fragment ≠ "" then u3 ++ "#" ++ r.fragment else u3

/-- CPython `uses_relative`. -/
def uses_relative : List String :=
  ["", "ftp", "http", "gopher", "nntp", "imap", "wais", "file", "https",
   "shttp", "mms", "prospero", "rtsp", "rtspu", "sftp", "svn", "svn+ssh",
   "ws", "wss"]

/-- CPython `uses_netloc`. -/
def uses_netloc : List String :=
  ["", "ftp", "http", "gopher", "nntp", "telnet", "imap", "wais", "file",
   "mms", "https", "shttp", "snews", "prospero", "rtsp", "rtspu", "rsync",
   "svn", "svn+ssh", "sftp", "nfs", "git", "git+ssh", "ws", "wss",
   "itms-services"]

/-- Python slice assignment `segments[1:-1] = filter(None, segments[1:-1])`:
empty segments are removed except in first and last position. -/
def pyFilterMiddle (segs : List String) : List String :=
  match segs with
  | [] => []
  | [s] => [s]
  | s :: rest => s :: ((rest.dropLast.filter (fun x => x ≠ "")) ++ [rest.getLastD ""])

/-- Dot-segment resolution loop of CPython `urljoin`: `..` pops the last
resolved segment (ignoring underflow), `.` is dropped, anything else is
appended. -/
def resolveSegs (acc : List String) : List String → List String
  | [] => acc
  | s :: rest =>
    if s = ".." then resolveSegs acc.dropLast rest
    else if s = "." then resolveSegs acc rest
    else resolveSegs (acc ++ [s]) rest

/-- CPython `urljoin base url` (with the `params` component folded into
the path). -/
def urljoin (base url : String) : String :=
  if base = "" then url
  else if url = "" then base
  else
    let b := urlsplit base ""
    let r := urlsplit url b.scheme
    if r.scheme ≠ b.scheme ∨ ¬ uses_relative.contains r.scheme then url
    else if uses_netloc.contains r.scheme ∧ r.netloc ≠ "" then urlunsplit r
    else
      let nl := if uses_netloc.contains r.scheme then b.netloc else r.netloc
      if r.path = "" then
        urlunsplit { scheme := r.scheme, netloc := nl, path := b.path,
                     query := if r.query = "" then b.query else r.query,
                     fragment := r.fragment }
      else
        let baseParts0 := pySplit b.path '/'
        let baseParts := if baseParts0.getLastD "" ≠ "" then baseParts0.dropLast else baseParts0
        let segments :=
          if r.path.toList.headD ' ' = '/' then pySplit r.path '/'
          else pyFilterMiddle (baseParts ++ pySplit r.path '/')
        let resolved0 := resolveSegs [] segments
        let resolved :=
          if segments.getLastD "" = "." ∨ segments.getLastD "" = ".." then resolved0 ++ [""]
          else resolved0
        let p0 := joinSlash resolved
        urlunsplit { scheme := r.scheme, netloc := nl,
                     path := if p0 = "" then "/" else p0,
                     query := r.query, fragment := r.fragment }

/-! ## crawler.py utility helpers -/

/-- `crawler.py` line 38: `same_domain` compares only the `netloc`
components of the two URLs (the `try/except` around `urlparse` is dead in
this model because the embedded parser is total). -/
def same_domain (base other : String) : Bool :=
  decide ((urlsplit base "").netloc = (urlsplit other "").netloc)

/-- `crawler.py` line 45: `normalize_url` drops the fragment of the raw
link (`link.split("#")[0]`) and resolves it against the base. -/
def normalize_url (base link : String) : String :=
  urljoin base (String.mk (splitOnFirst '#' link.toList).1)

end WebScanPro

namespace WebScanPro

/-! ## Crawler data model (`crawler.py` lines 74-204)

The network, the robots.txt reader and the BeautifulSoup parser live
outside the crawl engine; they are an environment of oracles:
`http` gives the outcome of `requests.Session.get` for a URL (a
completed response, or the exception message captured by `fetch`),
`robotsTxt` gives the robots policy parsed for a robots.txt URL (`none`
when `RobotFileParser.read` raises, the case `RobotsChecker.__init__`
turns into `self.rp = None`), and `extract` gives the raw hrefs and form
descriptors `extract_links_and_forms` produces from a body text. -/

/-- Outcome of one `requests.Session.get` call. -/
inductive FetchOutcome where
  | ok (status : Nat) (text : String) (headers : List (String × String))
  | exn (msg : String)

/-- Tuple returned by `Crawler.fetch` (lines 123-131). -/
structure FetchRes where
  status : Nat
  text : String
  headers : List (String × String)
deriving DecidableEq

/-- Form input descriptor `{"name": ..., "type": ...}` (line 118). -/
structure RawInput where
  name : Option String
  type : String
deriving DecidableEq

/-- Form descriptor produced by `extract_links_and_forms` (line 119). -/
structure RawForm where
  action : String
  method : String
  inputs : List RawInput
deriving DecidableEq

/-- Form descriptor after line 190 added `resolved_action`. -/
structure ResolvedForm where
  action : String
  method : String
  inputs : List RawInput
  resolved_action : String
deriving DecidableEq

/-- Value stored in `self.results`: the robots-skip marker dict
`{"skipped": "blocked_by_robots"}` of line 146 (which carries no other
fields), or the `page_data` dict of lines 154-199.  `error` is `some`
exactly when line 197 added the `"error"` key. -/
inductive StoredRecord where
  | robotsSkipped
  | page (url : String) (status : Nat) (headers : List (String × String))
      (depth : Nat) (forms : List ResolvedForm) (out_links : List String)
      (error : Option String)
deriving DecidableEq

/-- Environment of oracles for one crawl run. -/
structure Env where
  http : String → FetchOutcome
  robotsTxt : String → Option (String → Bool)
  extract : String → List String × List RawForm

/-- Crawler configuration state set up by `Crawler.__init__`
(lines 75-99); `rp` is the `RobotsChecker`'s parsed policy. -/
structure Crawler where
  start_url : String
  max_pages : Nat
  max_depth : Nat
  allowed_external : Bool
  rp : Option (String → Bool)

/-- The robots.txt URL `f"{parsed.scheme}://{parsed.netloc}/robots.txt"`
built by `RobotsChecker.__init__` (line 53). -/
def robotsUrlOf (u : String) : String :=
  (urlsplit u "").scheme ++ "://" ++ (urlsplit u "").netloc ++ "/robots.txt"

/-- `Crawler.__init__`: the start URL is `start_url.rstrip("/")`
(line 85) and the robots policy is read once, here, for the start URL's
scheme+netloc (line 95). -/
def mkCrawler (env : Env) (start_url : String) (max_pages max_depth : Nat)
    (allowed_external : Bool) : Crawler :=
  { start_url := pyRstripSlash start_url
    max_pages := max_pages
    max_depth := max_depth
    allowed_external := allowed_external
    rp := env.robotsTxt (robotsUrlOf (pyRstripSlash start_url)) }

/-- `RobotsChecker.can_fetch` (lines 64-70): permit everything when no
policy was read, otherwise ask the policy (a `can_fetch` call that
raises is modelled as a policy answering `true`). -/
def can_fetch (c : Crawler) (url : String) : Bool :=
  match c.rp with
  | none => true
  | some p => p url

/-- `Crawler.fetch` (lines 123-131): a completed response is passed
through; an exception yields status `0`, an in-band
`__fetch_error__:`-prefixed body, and empty headers. -/
def fetch (env : Env) (url : String) : FetchRes :=
  match env.http url with
  | .ok s t h => { status := s, text := t, headers := h }
  | .exn m => { status := 0, text := "__fetch_error__:" ++ m, headers := [] }

/-- Mutable state of the per-page link loop (lines 167-183):
the `normalized` list, and the shared `self.visited` set and frontier
deque it updates. -/
structure LinkAcc where
  normalized : List String
  visited : List String
  q : List (String × Nat)
deriving DecidableEq

/-- Body of the `for link in links` loop (lines 168-183): normalize,
drop `mailto:`/`javascript:` prefixes, drop foreign-netloc links unless
external is allowed, append to `normalized`, and enqueue+mark-visited
when unvisited, within depth, and within the projected page budget. -/
def processLink (c : Crawler) (resultsLen : Nat) (url : String) (depth : Nat)
    (acc : LinkAcc) (link : String) : LinkAcc :=
  let n := normalize_url url link
  if pyStartsWith n "mailto:" || pyStartsWith n "javascript:" then acc
  else if !c.allowed_external && !same_domain c.start_url n then acc
  else
    let acc1 : LinkAcc := { acc with normalized := acc.normalized ++ [n] }
    if n ∉ acc1.visited ∧ depth + 1 ≤ c.max_depth ∧
        resultsLen + acc1.q.length < c.max_pages then
      { acc1 with visited := acc1.visited ++ [n], q := acc1.q ++ [(n, depth + 1)] }
    else acc1

/-- Lines 186-191: resolve a form's action against the page URL; an
empty action resolves to the page URL itself. -/
def resolveForm (url : String) (f : RawForm) : ResolvedForm :=
  { action := f.action, method := f.method, inputs := f.inputs
    resolved_action := if f.action = "" then url else normalize_url url f.action }

/-- Python dict assignment `self.results[url] = v` on an
insertion-ordered association list: overwrite in place when the key
exists, else append. -/
def dictInsert (m : List (String × StoredRecord)) (k : String) (v : StoredRecord) :
    List (String × StoredRecord) :=
  if k ∈ m.map Prod.fst then m.map (fun p => if p.1 = k then (k, v) else p)
  else m ++ [(k, v)]

/-- State of the crawl loop.  `dequeued` is instrumentation only: the
history of URLs popped from the frontier, in order; no branch of the
loop reads it. -/
structure CrawlState where
  q : List (String × Nat)
  visited : List String
  results : List (String × StoredRecord)
  dequeued : List String
deriving DecidableEq

/-- Lines 134-136: seed the frontier with `(start_url, 0)` and mark the
start URL visited. -/
def initState (c : Crawler) : CrawlState :=
  { q := [(c.start_url, 0)], visited := [c.start_url], results := [], dequeued := [] }

/-- One iteration body of the `while` loop (lines 139-202), applied to a
state whose frontier head `(url, depth)` has been split off as `rest`. -/
def processEntry (env : Env) (c : Crawler) (s : CrawlState) (url : String)
    (depth : Nat) (rest : List (String × Nat)) : CrawlState :=
  let s0 : CrawlState := { s with q := rest, dequeued := s.dequeued ++ [url] }
  if depth > c.max_depth then s0
  else if can_fetch c url = false then
    { s0 with results := dictInsert s0.results url .robotsSkipped }
  else
    let fr := fetch env url
    if fr.status = 200 ∧ pyStartsWith fr.text "__fetch_error__" = false then
      let lf := env.extract fr.text
      let acc := lf.1.foldl (processLink c s.results.length url depth)
        { normalized := [], visited := s0.visited, q := s0.q }
      { q := acc.q
        visited := acc.visited
        results := dictInsert s0.results url
          (.page url fr.status fr.headers depth (lf.2.map (resolveForm url))
            acc.normalized none)
        dequeued := s0.dequeued }
    else
      { s0 with
        results := dictInsert s0.results url
          (.page url fr.status fr.headers depth [] [] (some fr.text)) }

/-- One test of the `while q and len(self.results) < self.max_pages`
condition (line 138) plus, when it holds, one iteration.  When the
condition fails the state is final and the step is the identity. -/
def stepLoop (env : Env) (c : Crawler) (s : CrawlState) : CrawlState :=
  if s.results.length < c.max_pages then
    match s.q with
    | [] => s
    | (url, depth) :: rest => processEntry env c s url depth rest
  else s

/-- State after `n` tests of the loop condition, starting from the
seeded state.  `Crawler.crawl` returns `s.results` for any `s` that is a
fixed point of `stepLoop` (the loop has exited). -/
def crawlN (env : Env) (c : Crawler) : Nat → CrawlState
  | 0 => initState c
  | n + 1 => stepLoop env c (crawlN env c n)

/-- Out-links of a stored record (the robots-skip marker has none). -/
def outLinksOf : StoredRecord → List String
  | .robotsSkipped => []
  | .page _ _ _ _ _ ls _ => ls

/-- Forms of a stored record. -/
def formsOf : StoredRecord → List ResolvedForm
  | .robotsSkipped => []
  | .page _ _ _ _ fs _ _ => fs

/-- The `depth` field of a stored record, when the record has one. -/
def recDepth : StoredRecord → Option Nat
  | .robotsSkipped => none
  | .page _ _ _ d _ _ _ => some d

/-- The `error` field of a stored record, when present. -/
def recError : StoredRecord → Option String
  | .robotsSkipped => none
  | .page _ _ _ _ _ _ e => e

end WebScanPro

namespace WebScanPro

/-! ## Concrete runs used by the claim checks

A shared HTTP oracle returns status 200 with the distinguishable body
`"body:" ++ url`; each scenario chooses what the extractor finds in each
body. -/

/-- HTTP oracle: every URL responds 200 with body `"body:" ++ url`. -/
def httpOk : String → FetchOutcome := fun u => .ok 200 ("body:" ++ u) []

/-- Robots oracle: robots.txt is unavailable everywhere. -/
def noRobots : String → Option (String → Bool) := fun _ => none

/-- Spec scenario of §8: the start page links to `/a` and
`https://other.test/`; every other page has no links. -/
def envScenario : Env :=
  { http := httpOk
    robotsTxt := noRobots
    extract := fun b =>
      if b = "body:http://x.test" then (["/a", "https://other.test/"], [])
      else ([], []) }

/-- Crawler of the §8 scenario: `maxPages=10`, `maxDepth=1`,
`allowExternal=false`. -/
def cScenario : Crawler := mkCrawler envScenario "http://x.test/" 10 1 false

end WebScanPro

namespace WebScanPro

/-- Run whose start page carries an `https` link on the start host:
`same_domain` compares netlocs only, so the crawler keeps it. -/
def envHttpsLink : Env :=
  { http := httpOk
    robotsTxt := noRobots
    extract := fun b =>
      if b = "body:http://x.test" then (["https://x.test/s"], []) else ([], []) }

/-- Crawler for `envHttpsLink`. -/
def cHttps : Crawler := mkCrawler envHttpsLink "http://x.test" 10 1 false

/-- Run where the start page links to a `weird:` scheme URL on the start
host, whose own page carries a protocol-relative link: the second page's
recorded out-link `//x.test/b` has no scheme at all. -/
def envWeird : Env :=
  { http := httpOk
    robotsTxt := noRobots
    extract := fun b =>
      if b = "body:http://x.test" then (["weird://x.test/a"], [])
      else if b = "body:weird://x.test/a" then (["//x.test/b"], [])
      else ([], []) }

/-- Crawler for `envWeird`. -/
def cWeird : Crawler := mkCrawler envWeird "http://x.test" 10 2 false

/-- Run whose start URL carries a fragment and whose page has a
fragment-only link: `urljoin(base, "")` returns the base unchanged,
fragment included. -/
def envFrag : Env :=
  { http := httpOk
    robotsTxt := noRobots
    extract := fun b =>
      if b = "body:http://x.test/p#f" then (["#sec"], []) else ([], []) }

/-- Crawler for `envFrag`. -/
def cFrag : Crawler := mkCrawler envFrag "http://x.test/p#f" 10 1 false

/-- Run whose start page links to an `ftp:` URL, with external crawling
allowed. -/
def envFtp : Env :=
  { http := httpOk
    robotsTxt := noRobots
    extract := fun b =>
      if b = "body:http://x.test" then (["ftp://x.test/f"], []) else ([], []) }

/-- Crawler for `envFtp` (`allowExternal=true`). -/
def cFtp : Crawler := mkCrawler envFtp "http://x.test" 10 1 true

/-- Robots policy denying every URL. -/
def polDeny : String → Bool := fun _ => false

/-- Robots policy allowing every URL. -/
def polAllow : String → Bool := fun _ => true

/-- Environment whose robots.txt denies everything on every origin. -/
def envDeny : Env :=
  { http := httpOk, robotsTxt := fun _ => some polDeny, extract := fun _ => ([], []) }

/-- Crawler for `envDeny`. -/
def cDeny : Crawler := mkCrawler envDeny "http://x.test" 5 2 false

/-- Environment answering 404 with body `"notfound"` everywhere. -/
def env404 : Env :=
  { http := fun _ => .ok 404 "notfound" []
    robotsTxt := noRobots
    extract := fun _ => ([], []) }

/-- Crawler for `env404`. -/
def c404 : Crawler := mkCrawler env404 "http://x.test" 5 2 false

/-- Environment whose responses complete with status 200 but whose body
starts with the in-band `__fetch_error__` marker. -/
def envErrBody : Env :=
  { http := fun _ => .ok 200 "__fetch_error__:boom" []
    robotsTxt := noRobots
    extract := fun _ => ([], []) }

/-- Crawler for `envErrBody`. -/
def cErrBody : Crawler := mkCrawler envErrBody "http://x.test" 5 2 false

/-- Robots oracle: start origin denies all, `other.test` allows all,
anything else unavailable. -/
def envRobotsA : Env :=
  { http := httpOk
    robotsTxt := fun r =>
      if r = "http://x.test/robots.txt" then some polDeny
      else if r = "http://other.test/robots.txt" then some polAllow
      else none
    extract := fun _ => ([], []) }

/-- Same as `envRobotsA` except that robots.txt for every origin other
than the start origin is unavailable. -/
def envRobotsB : Env :=
  { http := httpOk
    robotsTxt := fun r =>
      if r = "http://x.test/robots.txt" then some polDeny
      else none
    extract := fun _ => ([], []) }

/-- Crawler for `envRobotsA`. -/
def cRobotsA : Crawler := mkCrawler envRobotsA "http://x.test" 5 1 false

end WebScanPro

namespace WebScanPro

/-! ## Claim statements

Propositional forms of the spec claims that the code refutes; each is
disproved below by a concrete run. -/

/-- Robots gate behaviour in the words of the spec (section 4.2): the
answer for a URL is computed from the robots.txt of that URL's own
origin, with the fail-open default.  Written from the spec for
comparison with the code's `can_fetch`. -/
def canFetchOwnOriginSpec (env : Env) (url : String) : Bool :=
  match env.robotsTxt (robotsUrlOf url) with
  | none => true
  | some p => p url

/-- Claim C1 as stated: with `allowExternal=false`, every recorded
out-link of every run shares scheme, host and port with the start URL,
and is an absolute, fragment-free URL. -/
def ClaimC1 : Prop :=
  ∀ env start mp md n,
    ∀ p ∈ (crawlN env (mkCrawler env start mp md false) n).results,
      ∀ l ∈ outLinksOf p.2,
        ((urlsplit l "").scheme = (urlsplit start "").scheme ∧
          (urlsplit l "").netloc = (urlsplit start "").netloc) ∧
        (urlsplit l "").scheme ≠ "" ∧ l.toList.contains '#' = false

/-- Claim C2 as stated: every recorded out-link resolves to an `http` or
`https` URL, for every run whatever the configuration. -/
def ClaimC2 : Prop :=
  ∀ env c n, ∀ p ∈ (crawlN env c n).results, ∀ l ∈ outLinksOf p.2,
    (urlsplit l "").scheme = "http" ∨ (urlsplit l "").scheme = "https"

/-- Claim C4 as stated: every value stored in the result store has a
depth field, and it is at most `maxDepth`. -/
def ClaimC4 : Prop :=
  ∀ env c n, ∀ p ∈ (crawlN env c n).results,
    ∃ d, recDepth p.2 = some d ∧ d ≤ c.max_depth

/-- Claim C6 as stated: a record stored for a URL whose fetch completed
with a non-200 status has empty out-links and forms and no error set. -/
def ClaimC6 : Prop :=
  ∀ env c n, ∀ p ∈ (crawlN env c n).results, ∀ st body hdrs,
    env.http p.1 = FetchOutcome.ok st body hdrs → st ≠ 200 →
    outLinksOf p.2 = [] ∧ formsOf p.2 = [] ∧ recError p.2 = none

/-- Claim C8 as stated: the code's robots gate answers every query from
the robots.txt of the queried URL's own origin. -/
def ClaimC8 : Prop :=
  ∀ env start mp md ae url,
    can_fetch (mkCrawler env start mp md ae) url = canFetchOwnOriginSpec env url

/-- Claim C9 as stated: in the spec's scenario the final result store
has exactly the keys `http://x.test/` and `http://x.test/a`. -/
def ClaimC9 : Prop :=
  ∀ n, stepLoop envScenario cScenario (crawlN envScenario cScenario n) =
      crawlN envScenario cScenario n →
    "http://x.test/" ∈ (crawlN envScenario cScenario n).results.map Prod.fst ∧
    "http://x.test/a" ∈ (crawlN envScenario cScenario n).results.map Prod.fst ∧
    ∀ k ∈ (crawlN envScenario cScenario n).results.map Prod.fst,
      k = "http://x.test/" ∨ k = "http://x.test/a"

/-- Invariant of the per-page link loop tying the frontier to the
visited set: no URL in the dequeue history `D` or the frontier occurs
twice, and both are contained in the visited set. -/
def QInv (D : List String) (acc : LinkAcc) : Prop :=
  (D ++ acc.q.map Prod.fst).Nodup ∧
  (∀ u ∈ acc.q.map Prod.fst, u ∈ acc.visited) ∧
  (∀ u ∈ D, u ∈ acc.visited)

/-- Frontier/visited/store invariant of the crawl loop: the dequeue
history together with the pending frontier names no URL twice, frontier
and history are inside the visited set, and the result-store keys are a
subsequence of the dequeue history. -/
def InvC5 (s : CrawlState) : Prop :=
  (s.dequeued ++ s.q.map Prod.fst).Nodup ∧
  (∀ u ∈ s.q.map Prod.fst, u ∈ s.visited) ∧
  (∀ u ∈ s.dequeued, u ∈ s.visited) ∧
  (s.results.map Prod.fst).Sublist s.dequeued

/-! ## Structural lemmas about the loop body -/

theorem dictInsert_mem {m : List (String × StoredRecord)} {k : String} {v : StoredRecord}
    {p : String × StoredRecord} (hp : p ∈ dictInsert m k v) : p ∈ m ∨ p = (k, v) := by
  unfold dictInsert at hp
  split at hp
  · obtain ⟨q, hq, hqe⟩ := List.mem_map.mp hp
    by_cases h : q.1 = k
    · right
      rw [if_pos h] at hqe
      exact hqe.symm
    · left
      rw [if_neg h] at hqe
      exact hqe ▸ hq
  · rcases List.mem_append.mp hp with h | h
    · exact Or.inl h
    · right
      simpa using h

theorem dictInsert_length (m : List (String × StoredRecord)) (k : String) (v : StoredRecord) :
    (dictInsert m k v).length ≤ m.length + 1 := by
  unfold dictInsert
  split
  · simp
  · simp

theorem dictInsert_fst (m : List (String × StoredRecord)) (k : String) (v : StoredRecord) :
    (dictInsert m k v).map Prod.fst = m.map Prod.fst ∨
    (dictInsert m k v).map Prod.fst = m.map Prod.fst ++ [k] := by
  unfold dictInsert
  split
  · left
    rw [List.map_map]
    apply List.map_congr_left
    intro p _
    by_cases h : p.1 = k
    · simp [h]
    · simp [h]
  · right
    simp

theorem processLink_normalized (c : Crawler) (rl : Nat) (url : String) (depth : Nat)
    (acc : LinkAcc) (link : String) :
    (processLink c rl url depth acc link).normalized = acc.normalized ∨
    ((processLink c rl url depth acc link).normalized
        = acc.normalized ++ [normalize_url url link] ∧
      pyStartsWith (normalize_url url link) "mailto:" = false ∧
      pyStartsWith (normalize_url url link) "javascript:" = false ∧
      (c.allowed_external = false →
        same_domain c.start_url (normalize_url url link) = true)) := by
  simp only [processLink]
  split
  · exact Or.inl rfl
  next h1 =>
    split
    next h2 => exact Or.inl rfl
    next h2 =>
      simp only [Bool.or_eq_true, not_or, Bool.not_eq_true] at h1
      have hdom : c.allowed_external = false →
          same_domain c.start_url (normalize_url url link) = true := by
        intro hae
        by_contra hsd
        simp only [Bool.not_eq_true] at hsd
        exact h2 (by simp [hae, hsd])
      split
      · exact Or.inr ⟨rfl, h1.1, h1.2, hdom⟩
      · exact Or.inr ⟨rfl, h1.1, h1.2, hdom⟩

theorem processLink_q (c : Crawler) (rl : Nat) (url : String) (depth : Nat)
    (acc : LinkAcc) (link : String) :
    (processLink c rl url depth acc link).q = acc.q ∨
    ((processLink c rl url depth acc link).q
        = acc.q ++ [(normalize_url url link, depth + 1)] ∧
      pyStartsWith (normalize_url url link) "mailto:" = false ∧
      pyStartsWith (normalize_url url link) "javascript:" = false ∧
      (c.allowed_external = false →
        same_domain c.start_url (normalize_url url link) = true) ∧
      normalize_url url link ∉ acc.visited ∧ depth + 1 ≤ c.max_depth) := by
  simp only [processLink]
  split
  · exact Or.inl rfl
  next h1 =>
    split
    next h2 => exact Or.inl rfl
    next h2 =>
      simp only [Bool.or_eq_true, not_or, Bool.not_eq_true] at h1
      have hdom : c.allowed_external = false →
          same_domain c.start_url (normalize_url url link) = true := by
        intro hae
        by_contra hsd
        simp only [Bool.not_eq_true] at hsd
        exact h2 (by simp [hae, hsd])
      split
      next h3 => exact Or.inr ⟨rfl, h1.1, h1.2, hdom, h3.1, h3.2.1⟩
      next h3 => exact Or.inl rfl

theorem processLink_visited (c : Crawler) (rl : Nat) (url : String) (depth : Nat)
    (acc : LinkAcc) (link : String) :
    (processLink c rl url depth acc link).visited = acc.visited ∨
    ((processLink c rl url depth acc link).visited
        = acc.visited ++ [normalize_url url link] ∧
      normalize_url url link ∉ acc.visited) := by
  simp only [processLink]
  split
  · exact Or.inl rfl
  · split
    · exact Or.inl rfl
    · split
      next h3 => exact Or.inr ⟨rfl, h3.1⟩
      next h3 => exact Or.inl rfl

theorem processLink_QInv {D : List String} {c : Crawler} {rl : Nat} {url : String}
    {depth : Nat} {acc : LinkAcc} {link : String} (h : QInv D acc) :
    QInv D (processLink c rl url depth acc link) := by
  obtain ⟨hnd, hq, hD⟩ := h
  simp only [processLink]
  split
  · exact ⟨hnd, hq, hD⟩
  · split
    · exact ⟨hnd, hq, hD⟩
    · split
      next h3 =>
        have hnotin : normalize_url url link ∉ D ++ acc.q.map Prod.fst := by
          intro hmem
          rcases List.mem_append.mp hmem with h | h
          · exact h3.1 (hD _ h)
          · exact h3.1 (hq _ h)
        refine ⟨?_, ?_, ?_⟩
        · simp only [List.map_append, List.map_cons, List.map_nil, ← List.append_assoc]
          refine List.Nodup.append hnd (List.nodup_singleton _) ?_
          intro a ha hb
          rw [List.mem_singleton] at hb
          subst hb
          exact hnotin ha
        · intro u hu
          simp only [List.map_append, List.map_cons, List.map_nil] at hu
          rcases List.mem_append.mp hu with h | h
          · exact List.mem_append_left _ (hq u h)
          · simp only [List.mem_singleton] at h
            subst h
            exact List.mem_append_right _ (by simp)
        · intro u hu
          exact List.mem_append_left _ (hD u hu)
      next h3 => exact ⟨hnd, hq, hD⟩

theorem foldl_QInv {D : List String} {c : Crawler} {rl : Nat} {url : String} {depth : Nat}
    (links : List String) (acc : LinkAcc) (h : QInv D acc) :
    QInv D (links.foldl (processLink c rl url depth) acc) := by
  induction links generalizing acc with
  | nil => exact h
  | cons l ls ih => exact ih _ (processLink_QInv h)

theorem foldl_normalized_mem {c : Crawler} {rl : Nat} {url : String} {depth : Nat}
    (links : List String) (acc : LinkAcc) (x : String)
    (hx : x ∈ (links.foldl (processLink c rl url depth) acc).normalized) :
    x ∈ acc.normalized ∨
      (pyStartsWith x "mailto:" = false ∧ pyStartsWith x "javascript:" = false ∧
        (c.allowed_external = false → same_domain c.start_url x = true)) := by
  induction links generalizing acc with
  | nil => exact Or.inl hx
  | cons l ls ih =>
    rcases ih (processLink c rl url depth acc l) hx with h | h
    · rcases processLink_normalized c rl url depth acc l with he | ⟨he, h1, h2, h3⟩
      · exact Or.inl (he ▸ h)
      · rw [he] at h
        rcases List.mem_append.mp h with h | h
        · exact Or.inl h
        · rw [List.mem_singleton] at h
          subst h
          exact Or.inr ⟨h1, h2, h3⟩
    · exact Or.inr h

theorem foldl_q_mem {c : Crawler} {rl : Nat} {url : String} {depth : Nat}
    (links : List String) (acc : LinkAcc) (e : String × Nat)
    (he : e ∈ (links.foldl (processLink c rl url depth) acc).q) :
    e ∈ acc.q ∨
      (pyStartsWith e.1 "mailto:" = false ∧ pyStartsWith e.1 "javascript:" = false ∧
        (c.allowed_external = false → same_domain c.start_url e.1 = true) ∧
        e.2 = depth + 1 ∧ e.2 ≤ c.max_depth) := by
  induction links generalizing acc with
  | nil => exact Or.inl he
  | cons l ls ih =>
    rcases ih (processLink c rl url depth acc l) he with h | h
    · rcases processLink_q c rl url depth acc l with hq | ⟨hq, h1, h2, h3, _, h5⟩
      · exact Or.inl (hq ▸ h)
      · rw [hq] at h
        rcases List.mem_append.mp h with h | h
        · exact Or.inl h
        · rw [List.mem_singleton] at h
          subst h
          exact Or.inr ⟨h1, h2, h3, rfl, h5⟩
    · exact Or.inr h

theorem processEntry_dequeued (env : Env) (c : Crawler) (s : CrawlState) (url : String)
    (depth : Nat) (rest : List (String × Nat)) :
    (processEntry env c s url depth rest).dequeued = s.dequeued ++ [url] := by
  simp only [processEntry]
  split
  · rfl
  · split
    · rfl
    · split
      · rfl
      · rfl

theorem processEntry_results_mem {env : Env} {c : Crawler} {s : CrawlState} {url : String}
    {depth : Nat} {rest : List (String × Nat)} {p : String × StoredRecord}
    (hp : p ∈ (processEntry env c s url depth rest).results) :
    p ∈ s.results ∨
    (p.1 = url ∧ depth ≤ c.max_depth ∧
      ((can_fetch c url = false ∧ p.2 = StoredRecord.robotsSkipped) ∨
       (can_fetch c url = true ∧
         (((fetch env url).status = 200 ∧
             pyStartsWith (fetch env url).text "__fetch_error__" = false ∧
             p.2 = StoredRecord.page url (fetch env url).status (fetch env url).headers depth
               ((env.extract (fetch env url).text).2.map (resolveForm url))
               ((env.extract (fetch env url).text).1.foldl
                 (processLink c s.results.length url depth)
                 { normalized := [], visited := s.visited, q := rest }).normalized
               none) ∨
          (¬((fetch env url).status = 200 ∧
              pyStartsWith (fetch env url).text "__fetch_error__" = false) ∧
            p.2 = StoredRecord.page url (fetch env url).status (fetch env url).headers depth
              [] [] (some (fetch env url).text)))))) := by
  simp only [processEntry] at hp
  split at hp
  · exact Or.inl hp
  next hdep =>
    have hdep2 : depth ≤ c.max_depth := by omega
    split at hp
    next hrob =>
      rcases dictInsert_mem hp with h | h
      · exact Or.inl h
      · subst h
        exact Or.inr ⟨rfl, hdep2, Or.inl ⟨hrob, rfl⟩⟩
    next hrob =>
      have hrob2 : can_fetch c url = true := by
        rcases Bool.eq_false_or_eq_true (can_fetch c url) with h | h
        · exact h
        · exact absurd h hrob
      split at hp
      next hok =>
        rcases dictInsert_mem hp with h | h
        · exact Or.inl h
        · subst h
          exact Or.inr ⟨rfl, hdep2, Or.inr ⟨hrob2, Or.inl ⟨hok.1, hok.2, rfl⟩⟩⟩
      next hok =>
        rcases dictInsert_mem hp with h | h
        · exact Or.inl h
        · subst h
          exact Or.inr ⟨rfl, hdep2, Or.inr ⟨hrob2, Or.inr ⟨hok, rfl⟩⟩⟩

theorem processEntry_q_mem {env : Env} {c : Crawler} {s : CrawlState} {url : String}
    {depth : Nat} {rest : List (String × Nat)} {e : String × Nat}
    (he : e ∈ (processEntry env c s url depth rest).q) :
    e ∈ rest ∨
      (pyStartsWith e.1 "mailto:" = false ∧ pyStartsWith e.1 "javascript:" = false ∧
        (c.allowed_external = false → same_domain c.start_url e.1 = true) ∧
        e.2 ≤ c.max_depth) := by
  simp only [processEntry] at he
  split at he
  · exact Or.inl he
  · split at he
    · exact Or.inl he
    · split at he
      · rcases foldl_q_mem _ _ _ he with h | h
        · exact Or.inl h
        · exact Or.inr ⟨h.1, h.2.1, h.2.2.1, h.2.2.2.2⟩
      · exact Or.inl he

theorem processEntry_results_length (env : Env) (c : Crawler) (s : CrawlState) (url : String)
    (depth : Nat) (rest : List (String × Nat)) :
    (processEntry env c s url depth rest).results.length ≤ s.results.length + 1 := by
  simp only [processEntry]
  split
  · exact Nat.le_succ _
  · split
    · exact dictInsert_length _ _ _
    · split
      · exact dictInsert_length _ _ _
      · exact dictInsert_length _ _ _

theorem stepLoop_eq_of_cond (env : Env) (c : Crawler) (s : CrawlState) (url : String)
    (depth : Nat) (rest : List (String × Nat)) (hq : s.q = (url, depth) :: rest)
    (hlen : s.results.length < c.max_pages) :
    stepLoop env c s = processEntry env c s url depth rest := by
  unfold stepLoop
  rw [if_pos hlen, hq]

theorem stepLoop_eq_self_of_nil (env : Env) (c : Crawler) (s : CrawlState)
    (hq : s.q = []) : stepLoop env c s = s := by
  unfold stepLoop
  rw [hq]
  split
  · rfl
  · rfl

theorem stepLoop_eq_self_of_full (env : Env) (c : Crawler) (s : CrawlState)
    (h : ¬ s.results.length < c.max_pages) : stepLoop env c s = s := by
  unfold stepLoop
  rw [if_neg h]

theorem stepLoop_cases (env : Env) (c : Crawler) (s : CrawlState) :
    stepLoop env c s = s ∨
    ∃ url depth rest, s.q = (url, depth) :: rest ∧ s.results.length < c.max_pages ∧
      stepLoop env c s = processEntry env c s url depth rest := by
  by_cases hlen : s.results.length < c.max_pages
  · cases hs : s.q with
    | nil => exact Or.inl (stepLoop_eq_self_of_nil env c s hs)
    | cons e rest =>
      obtain ⟨url, depth⟩ := e
      exact Or.inr ⟨url, depth, rest, rfl, hlen,
        stepLoop_eq_of_cond env c s url depth rest hs hlen⟩
  · exact Or.inl (stepLoop_eq_self_of_full env c s hlen)

theorem crawlN_inv {env : Env} {c : Crawler} (P : CrawlState → Prop)
    (h0 : P (initState c)) (hstep : ∀ s, P s → P (stepLoop env c s)) :
    ∀ n, P (crawlN env c n)
  | 0 => h0
  | n + 1 => hstep _ (crawlN_inv P h0 hstep n)

theorem processEntry_InvC5 {env : Env} {c : Crawler} {s : CrawlState} {url : String}
    {depth : Nat} {rest : List (String × Nat)} (hq : s.q = (url, depth) :: rest)
    (h : InvC5 s) : InvC5 (processEntry env c s url depth rest) := by
  obtain ⟨hnd, hqv, hdv, hsub⟩ := h
  rw [hq] at hnd hqv
  simp only [List.map_cons] at hnd hqv
  have hndD : ((s.dequeued ++ [url]) ++ rest.map Prod.fst).Nodup := by
    rw [List.append_assoc]
    simpa using hnd
  have hurlv : url ∈ s.visited := hqv url (by simp)
  have hrestv : ∀ u ∈ rest.map Prod.fst, u ∈ s.visited := fun u hu => hqv u (by simp [hu])
  have hDv : ∀ u ∈ s.dequeued ++ [url], u ∈ s.visited := by
    intro u hu
    rcases List.mem_append.mp hu with h | h
    · exact hdv u h
    · rw [List.mem_singleton] at h
      subst h
      exact hurlv
  have hsub1 : (s.results.map Prod.fst).Sublist (s.dequeued ++ [url]) :=
    hsub.trans (List.sublist_append_left _ _)
  have hsubIns : ∀ v : StoredRecord,
      ((dictInsert s.results url v).map Prod.fst).Sublist (s.dequeued ++ [url]) := by
    intro v
    rcases dictInsert_fst s.results url v with hf | hf
    · rw [hf]
      exact hsub1
    · rw [hf]
      exact List.Sublist.append hsub (List.Sublist.refl [url])
  simp only [processEntry]
  split
  · exact ⟨hndD, hrestv, hDv, hsub1⟩
  · split
    · exact ⟨hndD, hrestv, hDv, hsubIns _⟩
    · split
      · have hQ : QInv (s.dequeued ++ [url])
            { normalized := [], visited := s.visited, q := rest } :=
          ⟨hndD, hrestv, hDv⟩
        obtain ⟨hnd', hqv', hDv'⟩ :=
          @foldl_QInv (s.dequeued ++ [url]) c s.results.length url depth _ _ hQ
        exact ⟨hnd', hqv', hDv', hsubIns _⟩
      · exact ⟨hndD, hrestv, hDv, hsubIns _⟩

theorem initState_InvC5 (c : Crawler) : InvC5 (initState c) := by
  refine ⟨by simp [initState], ?_, ?_, by simp [initState]⟩
  · intro u hu
    simpa [initState] using hu
  · intro u hu
    simp [initState] at hu

theorem crawlN_InvC5 (env : Env) (c : Crawler) (n : Nat) : InvC5 (crawlN env c n) := by
  refine crawlN_inv InvC5 (initState_InvC5 c) (fun s hs => ?_) n
  rcases stepLoop_cases env c s with he | ⟨url, depth, rest, hq, hlen, he⟩
  · rw [he]
    exact hs
  · rw [he]
    exact processEntry_InvC5 hq hs

/-! ## Claim theorems -/

/-- C3: at every point during a crawl run the result store holds at most
`maxPages` entries; in particular the mapping `crawl()` returns never
has more than `maxPages` records. -/
theorem c3_results_bounded (env : Env) (c : Crawler) (n : Nat) :
    (crawlN env c n).results.length ≤ c.max_pages := by
  refine crawlN_inv (fun s => s.results.length ≤ c.max_pages)
    (by simp [initState]) (fun s hs => ?_) n
  rcases stepLoop_cases env c s with he | ⟨url, depth, rest, hq, hlen, he⟩
  · rw [he]
    exact hs
  · rw [he]
    have := processEntry_results_length env c s url depth rest
    omega

/-- C5: within one crawl run no URL is dequeued (hence fetched) twice,
the pending frontier never repeats a URL that was enqueued before, and
no result-store key is written from two different frontier entries. -/
theorem c5_enqueue_at_most_once (env : Env) (c : Crawler) (n : Nat) :
    (crawlN env c n).dequeued.Nodup ∧
    ((crawlN env c n).dequeued ++ (crawlN env c n).q.map Prod.fst).Nodup ∧
    ((crawlN env c n).results.map Prod.fst).Nodup := by
  obtain ⟨hnd, -, -, hsub⟩ := crawlN_InvC5 env c n
  have hdnd : (crawlN env c n).dequeued.Nodup := List.Nodup.of_append_left hnd
  exact ⟨hdnd, hnd, hsub.nodup hdnd⟩

/-- C4 (amended): every stored record that carries a depth field has it
at most `maxDepth` (the robots-skip marker dict carries no depth field),
and a frontier entry dequeued with depth above `maxDepth` is discarded
without recording anything. -/
theorem c4_depth_bounded (env : Env) (c : Crawler) (n : Nat) :
    (∀ p ∈ (crawlN env c n).results, ∀ d, recDepth p.2 = some d → d ≤ c.max_depth) ∧
    (∀ s : CrawlState, ∀ url depth rest, s.q = (url, depth) :: rest →
      c.max_depth < depth → s.results.length < c.max_pages →
      (stepLoop env c s).results = s.results ∧ (stepLoop env c s).q = rest) := by
  constructor
  · refine crawlN_inv
      (fun s => ∀ p ∈ s.results, ∀ d, recDepth p.2 = some d → d ≤ c.max_depth)
      (by simp [initState]) (fun s hs => ?_) n
    intro p hp d hd
    rcases stepLoop_cases env c s with he | ⟨url, depth, rest, hq, hlen, he⟩
    · rw [he] at hp
      exact hs p hp d hd
    · rw [he] at hp
      rcases processEntry_results_mem hp with h | ⟨-, hdep, hrec⟩
      · exact hs p h d hd
      · rcases hrec with ⟨-, hrec⟩ | ⟨-, hrec⟩
        · rw [hrec] at hd
          simp [recDepth] at hd
        · rcases hrec with ⟨-, -, hrec⟩ | ⟨-, hrec⟩ <;>
          · rw [hrec] at hd
            simp only [recDepth, Option.some.injEq] at hd
            omega
  · intro s url depth rest hq hdep hlen
    rw [stepLoop_eq_of_cond env c s url depth rest hq hlen]
    constructor
    · simp only [processEntry]
      rw [if_pos hdep]
    · simp only [processEntry]
      rw [if_pos hdep]

/-- C4 witness: the scenario run stores a record whose depth field obeys
the bound. -/
theorem c4_witness : (0 : Nat) ≤ cScenario.max_depth :=
  (c4_depth_bounded envScenario cScenario 3).1
    ("http://x.test", StoredRecord.page "http://x.test" 200 [] 0 [] ["http://x.test/a"] none)
    (by decide) 0 (by decide)

/-- C4 counterexample: a robots-denied start URL stores the bare
robots-skip dict, which has no depth field at all. -/
theorem c4_counterexample : ¬ ClaimC4 := by
  intro h
  obtain ⟨d, hd, -⟩ := h envDeny cDeny 1 ("http://x.test", StoredRecord.robotsSkipped)
    (by decide)
  simp [recDepth] at hd

/-- C1 (amended): with `allowExternal=false` every recorded out-link has
the same netloc (host and port) as the crawler's start URL; the scheme
is not constrained, and neither absoluteness nor fragment-freeness is
guaranteed. -/
theorem c1_out_links_same_netloc (env : Env) (c : Crawler)
    (hext : c.allowed_external = false) (n : Nat) :
    ∀ p ∈ (crawlN env c n).results, ∀ l ∈ outLinksOf p.2,
      (urlsplit l "").netloc = (urlsplit c.start_url "").netloc := by
  refine crawlN_inv
    (fun s => ∀ p ∈ s.results, ∀ l ∈ outLinksOf p.2,
      (urlsplit l "").netloc = (urlsplit c.start_url "").netloc)
    (by simp [initState]) (fun s hs => ?_) n
  intro p hp l hl
  rcases stepLoop_cases env c s with he | ⟨url, depth, rest, hq, hlen, he⟩
  · rw [he] at hp
    exact hs p hp l hl
  · rw [he] at hp
    rcases processEntry_results_mem hp with h | ⟨-, -, hrec⟩
    · exact hs p h l hl
    · rcases hrec with ⟨-, hrec⟩ | ⟨-, hrec⟩
      · rw [hrec] at hl
        simp [outLinksOf] at hl
      · rcases hrec with ⟨-, -, hrec⟩ | ⟨-, hrec⟩
        · rw [hrec] at hl
          simp only [outLinksOf] at hl
          rcases foldl_normalized_mem _ _ _ hl with h | ⟨-, -, hdom⟩
          · simp at h
          · exact (of_decide_eq_true (hdom hext)).symm
        · rw [hrec] at hl
          simp [outLinksOf] at hl

/-- C1 witness: in the scenario run the out-link of the start page has
the start URL's netloc. -/
theorem c1_witness :
    (urlsplit "http://x.test/a" "").netloc = (urlsplit cScenario.start_url "").netloc :=
  c1_out_links_same_netloc envScenario cScenario rfl 3
    ("http://x.test", StoredRecord.page "http://x.test" 200 [] 0 [] ["http://x.test/a"] none)
    (by decide) "http://x.test/a" (by decide)

/-- C1 counterexample: an `https` link on an `http` start origin is kept
(so origins differ in scheme); a run through a `weird:`-scheme page
records the scheme-less out-link `//x.test/b`; a fragment-carrying start
URL records an out-link containing a fragment. -/
theorem c1_counterexample :
    ¬ ClaimC1 ∧
    (("weird://x.test/a",
        StoredRecord.page "weird://x.test/a" 200 [] 1 [] ["//x.test/b"] none) ∈
        (crawlN envWeird cWeird 4).results ∧
      (urlsplit "//x.test/b" "").scheme = "") ∧
    (("http://x.test/p#f",
        StoredRecord.page "http://x.test/p#f" 200 [] 0 [] ["http://x.test/p#f"] none) ∈
        (crawlN envFrag cFrag 2).results ∧
      "http://x.test/p#f".toList.contains '#' = true) := by
  refine ⟨?_, by decide, by decide⟩
  intro h
  have := h envHttpsLink "http://x.test" 10 1 1
    ("http://x.test", StoredRecord.page "http://x.test" 200 [] 0 [] ["https://x.test/s"] none)
    (by decide) "https://x.test/s" (by decide)
  exact absurd this.1.1 (by decide)

/-- C2 (amended): the scheme filter of the crawl loop rejects exactly
the `mailto:` and `javascript:` prefixes: no recorded out-link and no
enqueued URL (other than the seeded start URL) carries either prefix,
but any other scheme may pass. -/
theorem c2_only_mailto_javascript_filtered (env : Env) (c : Crawler) (n : Nat) :
    (∀ p ∈ (crawlN env c n).results, ∀ l ∈ outLinksOf p.2,
      pyStartsWith l "mailto:" = false ∧ pyStartsWith l "javascript:" = false) ∧
    (∀ e ∈ (crawlN env c n).q, e.1 = c.start_url ∨
      (pyStartsWith e.1 "mailto:" = false ∧ pyStartsWith e.1 "javascript:" = false)) := by
  have key : ∀ m : Nat,
      (∀ p ∈ (crawlN env c m).results, ∀ l ∈ outLinksOf p.2,
        pyStartsWith l "mailto:" = false ∧ pyStartsWith l "javascript:" = false) ∧
      (∀ e ∈ (crawlN env c m).q, e.1 = c.start_url ∨
        (pyStartsWith e.1 "mailto:" = false ∧ pyStartsWith e.1 "javascript:" = false)) := by
    refine crawlN_inv
      (fun s => (∀ p ∈ s.results, ∀ l ∈ outLinksOf p.2,
        pyStartsWith l "mailto:" = false ∧ pyStartsWith l "javascript:" = false) ∧
        (∀ e ∈ s.q, e.1 = c.start_url ∨
          (pyStartsWith e.1 "mailto:" = false ∧ pyStartsWith e.1 "javascript:" = false)))
      ⟨by simp [initState], ?_⟩ (fun s hs => ⟨?_, ?_⟩)
    · intro e he
      simp only [initState, List.mem_singleton] at he
      subst he
      exact Or.inl rfl
    · intro p hp l hl
      rcases stepLoop_cases env c s with he | ⟨url, depth, rest, hq, hlen, he⟩
      · rw [he] at hp
        exact hs.1 p hp l hl
      · rw [he] at hp
        rcases processEntry_results_mem hp with h | ⟨-, -, hrec⟩
        · exact hs.1 p h l hl
        · rcases hrec with ⟨-, hrec⟩ | ⟨-, hrec⟩
          · rw [hrec] at hl
            simp [outLinksOf] at hl
          · rcases hrec with ⟨-, -, hrec⟩ | ⟨-, hrec⟩
            · rw [hrec] at hl
              simp only [outLinksOf] at hl
              rcases foldl_normalized_mem _ _ _ hl with h | ⟨h1, h2, -⟩
              · simp at h
              · exact ⟨h1, h2⟩
            · rw [hrec] at hl
              simp [outLinksOf] at hl
    · intro e he
      rcases stepLoop_cases env c s with hse | ⟨url, depth, rest, hq, hlen, hse⟩
      · rw [hse] at he
        exact hs.2 e he
      · rw [hse] at he
        rcases processEntry_q_mem he with h | ⟨h1, h2, -, -⟩
        · exact hs.2 e (by rw [hq]; exact List.mem_cons_of_mem _ h)
        · exact Or.inr ⟨h1, h2⟩
  exact key n

/-- C2 witness: the scenario out-link passes both filters. -/
theorem c2_witness :
    pyStartsWith "http://x.test/a" "mailto:" = false ∧
    pyStartsWith "http://x.test/a" "javascript:" = false :=
  (c2_only_mailto_javascript_filtered envScenario cScenario 3).1
    ("http://x.test", StoredRecord.page "http://x.test" 200 [] 0 [] ["http://x.test/a"] none)
    (by decide) "http://x.test/a" (by decide)

/-- C2 counterexample: an `ftp:` link on the start host is recorded as
an out-link and enqueued, so the filter does not reject every
non-http(s) scheme. -/
theorem c2_counterexample :
    ¬ ClaimC2 ∧ (crawlN envFtp cFtp 1).q = [("ftp://x.test/f", 1)] := by
  refine ⟨?_, by decide⟩
  intro h
  have := h envFtp cFtp 1
    ("http://x.test", StoredRecord.page "http://x.test" 200 [] 0 [] ["ftp://x.test/f"] none)
    (by decide) "ftp://x.test/f" (by decide)
  rcases this with h1 | h1 <;> exact absurd h1 (by decide)

/-- C6 (amended): a record stored for a crawled URL whose fetch
completed with a non-200 status has empty out-links and forms, but its
error field is set to the response body, so the error field alone does
not distinguish transport failures from completed non-200 fetches. -/
theorem c6_non200_record (env : Env) (c : Crawler) (n : Nat) :
    ∀ p ∈ (crawlN env c n).results, ∀ st body hdrs,
      env.http p.1 = FetchOutcome.ok st body hdrs → st ≠ 200 →
      can_fetch c p.1 = true →
      ∃ d, d ≤ c.max_depth ∧
        p.2 = StoredRecord.page p.1 st hdrs d [] [] (some body) := by
  refine crawlN_inv
    (fun s => ∀ p ∈ s.results, ∀ st body hdrs,
      env.http p.1 = FetchOutcome.ok st body hdrs → st ≠ 200 →
      can_fetch c p.1 = true →
      ∃ d, d ≤ c.max_depth ∧
        p.2 = StoredRecord.page p.1 st hdrs d [] [] (some body))
    (by simp [initState]) (fun s hs => ?_) n
  intro p hp st body hdrs henv hst hcf
  rcases stepLoop_cases env c s with he | ⟨url, depth, rest, hq, hlen, he⟩
  · rw [he] at hp
    exact hs p hp st body hdrs henv hst hcf
  · rw [he] at hp
    rcases processEntry_results_mem hp with h | ⟨hurl, hdep, hrec⟩
    · exact hs p h st body hdrs henv hst hcf
    · rw [hurl] at henv hcf
      have hf : fetch env url = { status := st, text := body, headers := hdrs } := by
        unfold fetch
        rw [henv]
      rcases hrec with ⟨hrob, -⟩ | ⟨-, hrec⟩
      · rw [hcf] at hrob
        simp at hrob
      · rcases hrec with ⟨hok, -, -⟩ | ⟨-, hrec⟩
        · rw [hf] at hok
          exact absurd hok hst
        · rw [hf] at hrec
          exact ⟨depth, hdep, by rw [hrec, hurl]⟩

/-- C6 witness: the 404 run yields a record with the body stored in the
error field and empty out-links and forms. -/
theorem c6_witness :
    ∃ d, d ≤ c404.max_depth ∧
      StoredRecord.page "http://x.test" 404 [] 0 [] [] (some "notfound") =
        StoredRecord.page "http://x.test" 404 [] d [] [] (some "notfound") :=
  c6_non200_record env404 c404 1
    ("http://x.test", StoredRecord.page "http://x.test" 404 [] 0 [] [] (some "notfound"))
    (by decide) 404 "notfound" [] rfl (by decide) rfl

/-- C6 counterexample: the record stored for a completed 404 fetch has
its error field set (to the response body), contradicting the claim that
error is only set on transport failures. -/
theorem c6_counterexample : ¬ ClaimC6 := by
  intro h
  have := h env404 c404 1
    ("http://x.test", StoredRecord.page "http://x.test" 404 [] 0 [] [] (some "notfound"))
    (by decide) 404 "notfound" [] rfl (by decide)
  exact absurd this.2.2 (by decide)

/-- C7: when reading robots.txt fails, the robots gate fails open:
`can_fetch` answers true for every URL for the whole run, and no record
of the run is a robots-skip record, so the failure never surfaces to the
caller. -/
theorem c7_fail_open (env : Env) (start : String) (mp md : Nat) (ae : Bool)
    (h : env.robotsTxt (robotsUrlOf (pyRstripSlash start)) = none) :
    (∀ url, can_fetch (mkCrawler env start mp md ae) url = true) ∧
    (∀ n, ∀ p ∈ (crawlN env (mkCrawler env start mp md ae) n).results,
      p.2 ≠ StoredRecord.robotsSkipped) := by
  have hcf : ∀ url, can_fetch (mkCrawler env start mp md ae) url = true := by
    intro url
    simp [can_fetch, mkCrawler, h]
  refine ⟨hcf, fun n => ?_⟩
  refine crawlN_inv (fun s => ∀ p ∈ s.results, p.2 ≠ StoredRecord.robotsSkipped)
    (by simp [initState]) (fun s hs => ?_) n
  intro p hp
  rcases stepLoop_cases env (mkCrawler env start mp md ae) s with he |
    ⟨url, depth, rest, hq, hlen, he⟩
  · rw [he] at hp
    exact hs p hp
  · rw [he] at hp
    rcases processEntry_results_mem hp with hmem | ⟨-, -, hrec⟩
    · exact hs p hmem
    · rcases hrec with ⟨hrob, -⟩ | ⟨-, hrec⟩
      · rw [hcf url] at hrob
        simp at hrob
      · rcases hrec with ⟨-, -, hrec⟩ | ⟨-, hrec⟩ <;> simp [hrec]

/-- C7 witness: with the unavailable-robots oracle the gate permits an
arbitrary URL. -/
theorem c7_witness :
    can_fetch (mkCrawler envScenario "http://x.test/" 10 1 false) "http://x.test/admin" = true :=
  (c7_fail_open envScenario "http://x.test/" 10 1 false rfl).1 "http://x.test/admin"

/-- C8 (amended): the robots policy is read once, eagerly, at crawler
construction, from the start URL's origin; that single cached policy
answers every query whatever the queried URL's origin, and the whole
run depends on the robots oracle only at the start origin's robots.txt
URL (so it is never re-consulted for any other origin). -/
theorem c8_start_origin_only (env env2 : Env) (start : String) (mp md : Nat) (ae : Bool)
    (hrt : env2.robotsTxt (robotsUrlOf (pyRstripSlash start)) =
      env.robotsTxt (robotsUrlOf (pyRstripSlash start)))
    (hhttp : env2.http = env.http) (hext : env2.extract = env.extract) :
    (∀ url, can_fetch (mkCrawler env start mp md ae) url =
      match env.robotsTxt (robotsUrlOf (pyRstripSlash start)) with
      | none => true
      | some p => p url) ∧
    (∀ n, crawlN env2 (mkCrawler env2 start mp md ae) n =
      crawlN env (mkCrawler env start mp md ae) n) := by
  have hc : mkCrawler env2 start mp md ae = mkCrawler env start mp md ae := by
    unfold mkCrawler
    rw [hrt]
  constructor
  · intro url
    rfl
  · intro n
    rw [hc]
    induction n with
    | zero => rfl
    | succ n ih =>
      show stepLoop env2 _ _ = stepLoop env _ _
      rw [ih]
      simp only [stepLoop, processEntry, fetch, hhttp, hext]

/-- C8 witness: two oracles agreeing only on the start origin's
robots.txt produce identical runs. -/
theorem c8_witness :
    crawlN envRobotsB (mkCrawler envRobotsB "http://x.test" 5 1 false) 2 =
      crawlN envRobotsA (mkCrawler envRobotsA "http://x.test" 5 1 false) 2 :=
  (c8_start_origin_only envRobotsA envRobotsB "http://x.test" 5 1 false rfl rfl rfl).2 2

/-- C8 counterexample: for a URL on `other.test` the code answers from
the start origin's policy (deny) although `other.test`'s own robots.txt
allows it, so the answer is not computed from the queried URL's own
origin. -/
theorem c8_counterexample : ¬ ClaimC8 := by
  intro h
  have := h envRobotsA "http://x.test" 5 1 false "http://other.test/p"
  exact absurd this (by decide)

/-- C9 (amended): in the spec scenario the final store has exactly the
keys `http://x.test` (the start URL with its trailing slash stripped by
the constructor) and `http://x.test/a`, and `https://other.test/`
appears neither as a key nor in any out-links list. -/
theorem c9_scenario_run :
    (crawlN envScenario cScenario 3).results.map Prod.fst =
      ["http://x.test", "http://x.test/a"] ∧
    stepLoop envScenario cScenario (crawlN envScenario cScenario 3) =
      crawlN envScenario cScenario 3 ∧
    ((crawlN envScenario cScenario 3).results.all
      (fun p => !(outLinksOf p.2).contains "https://other.test/")) = true :=
  ⟨by decide, by decide, by decide⟩

/-- C9 counterexample: the key the spec names as `http://x.test/` is
absent from the final store — the constructor strips the trailing slash,
so the stored key is `http://x.test`. -/
theorem c9_counterexample : ¬ ClaimC9 := by
  intro h
  have := (h 3 (by decide)).1
  exact absurd this (by decide)

/-- C10: a fetch that completes with status 200 but whose body starts
with the in-band `__fetch_error__` marker is recorded as a failure: no
extraction happens, out-links and forms stay empty, and the body is
stored in the error field. -/
theorem c10_fetch_error_body (env : Env) (c : Crawler) (n : Nat) :
    ∀ p ∈ (crawlN env c n).results, ∀ body hdrs,
      env.http p.1 = FetchOutcome.ok 200 body hdrs →
      pyStartsWith body "__fetch_error__" = true →
      can_fetch c p.1 = true →
      ∃ d, d ≤ c.max_depth ∧
        p.2 = StoredRecord.page p.1 200 hdrs d [] [] (some body) := by
  refine crawlN_inv
    (fun s => ∀ p ∈ s.results, ∀ body hdrs,
      env.http p.1 = FetchOutcome.ok 200 body hdrs →
      pyStartsWith body "__fetch_error__" = true →
      can_fetch c p.1 = true →
      ∃ d, d ≤ c.max_depth ∧
        p.2 = StoredRecord.page p.1 200 hdrs d [] [] (some body))
    (by simp [initState]) (fun s hs => ?_) n
  intro p hp body hdrs henv hpre hcf
  rcases stepLoop_cases env c s with he | ⟨url, depth, rest, hq, hlen, he⟩
  · rw [he] at hp
    exact hs p hp body hdrs henv hpre hcf
  · rw [he] at hp
    rcases processEntry_results_mem hp with h | ⟨hurl, hdep, hrec⟩
    · exact hs p h body hdrs henv hpre hcf
    · rw [hurl] at henv hcf
      have hf : fetch env url = { status := 200, text := body, headers := hdrs } := by
        unfold fetch
        rw [henv]
      rcases hrec with ⟨hrob, -⟩ | ⟨-, hrec⟩
      · rw [hcf] at hrob
        simp at hrob
      · rcases hrec with ⟨-, hok, -⟩ | ⟨-, hrec⟩
        · rw [hf] at hok
          rw [hpre] at hok
          simp at hok
        · rw [hf] at hrec
          exact ⟨depth, hdep, by rw [hrec, hurl]⟩

/-- C10 witness: a 200 response whose body is the in-band marker string
is stored as an error record. -/
theorem c10_witness :
    ∃ d, d ≤ cErrBody.max_depth ∧
      StoredRecord.page "http://x.test" 200 [] 0 [] [] (some "__fetch_error__:boom") =
        StoredRecord.page "http://x.test" 200 [] d [] [] (some "__fetch_error__:boom") :=
  c10_fetch_error_body envErrBody cErrBody 1
    ("http://x.test",
      StoredRecord.page "http://x.test" 200 [] 0 [] [] (some "__fetch_error__:boom"))
    (by decide) "__fetch_error__:boom" [] rfl (by decide) rfl
